import Mathlib

/-! # websocketd: path resolution, process launch and the connection bridge

A shallow embedding of `main.go` (functions `parsePath`, `execCmd`,
`acceptWebSocket`) together with the parts of the Go standard library they
call (`strings.Split`, `strings.Join`, `filepath.Clean`, `filepath.Join`,
`os.Stat`, `os/exec`).

Go strings are byte sequences, so a string is a list of bytes.  The file
system is a function from a path to the result of `os.Stat` on it.
-/

/-! ## Go strings -/

/-- One byte of a Go string. -/
abbrev Byte := UInt8

/-- Go `string`: an immutable sequence of bytes. -/
abbrev GoString := List Byte

/-- The bytes of an ASCII string literal. -/
def ascii (s : String) : GoString := s.toList.map (fun c => c.toNat.toUInt8)

/-- The byte `/`, `filepath.Separator` on Unix. -/
def Separator : Byte := 47

/-- The byte `.`. -/
def Dot : Byte := 46

/-- Go `os.IsPathSeparator` on Unix. -/
def IsPathSeparator (c : Byte) : Bool := c == Separator

namespace strings

/-- Go `strings.Split(s, sep)` for a one-byte separator: the substrings of `s`
between the occurrences of `sep`; the result always has `Count(s, sep) + 1`
elements, so `Split("", sep)` is `[""]`. -/
def Split (s : GoString) (sep : Byte) : List GoString :=
  match s with
  | [] => [[]]
  | c :: cs =>
    if c = sep then [] :: Split cs sep
    else
      match Split cs sep with
      | [] => [[c]]
      | seg :: segs => (c :: seg) :: segs

/-- Go `strings.Join(a, sep)`: the elements of `a` with `sep` between them. -/
def Join (a : List GoString) (sep : GoString) : GoString :=
  match a with
  | [] => []
  | [x] => x
  | x :: y :: rest => x ++ sep ++ Join (y :: rest) sep

end strings

namespace filepath

/-- The backtracking loop of `filepath.Clean` for a `..` element:
`for out.w > dotdot && !os.IsPathSeparator(out.index(out.w)) { out.w-- }`,
run on the write index `w` of the buffer `out`. -/
def backtrack (out : GoString) (dotdot : Nat) : Nat → Nat
  | 0 => 0
  | w + 1 =>
    if w + 1 > dotdot && !IsPathSeparator (out.getD (w + 1) 0) then backtrack out dotdot w
    else w + 1

/-- The main loop `for r < n { switch { ... } }` of `filepath.Clean`.
`rest` is `path[r:]`, `out` is the written part `buf[:w]` of the output buffer,
and the result is the final `(out, dotdot)`.  Every iteration consumes at
least one byte of `rest`, so `fuel = len(path)` iterations suffice. -/
def cleanLoop (rooted : Bool) : Nat → GoString → GoString → Nat → GoString × Nat
  | 0, _, out, dotdot => (out, dotdot)
  | _ + 1, [], out, dotdot => (out, dotdot)
  | fuel + 1, c :: cs, out, dotdot =>
    if IsPathSeparator c then
      -- empty path element
      cleanLoop rooted fuel cs out dotdot
    else if c = Dot ∧ (cs = [] ∨ cs.head? = some Separator) then
      -- . element
      cleanLoop rooted fuel cs out dotdot
    else if c = Dot ∧ cs.head? = some Dot ∧
        (cs.tail = [] ∨ cs.tail.head? = some Separator) then
      -- .. element: remove to last separator
      if out.length > dotdot then
        -- can backtrack
        cleanLoop rooted fuel cs.tail
          (out.take (backtrack out dotdot (out.length - 1))) dotdot
      else if !rooted then
        -- cannot backtrack, but not rooted, so append .. element
        let out1 := if out.length > 0 then out ++ [Separator] else out
        let out2 := out1 ++ [Dot, Dot]
        cleanLoop rooted fuel cs.tail out2 out2.length
      else
        cleanLoop rooted fuel cs.tail out dotdot
    else
      -- real path element: add slash if needed, then copy the element
      let out1 :=
        if (rooted && out.length != 1) || (!rooted && out.length != 0) then
          out ++ [Separator]
        else out
      cleanLoop rooted fuel ((c :: cs).dropWhile (fun b => !IsPathSeparator b))
        (out1 ++ (c :: cs).takeWhile (fun b => !IsPathSeparator b)) dotdot

/-- The main loop of `filepath.Clean` with one iteration for each byte that
remains. -/
def cleanRun (rooted : Bool) (rest out : GoString) (dotdot : Nat) : GoString × Nat :=
  cleanLoop rooted rest.length rest out dotdot

/-- Go `filepath.Clean` on Unix (no volume name, `FromSlash` is the identity). -/
def Clean (path : GoString) : GoString :=
  match path with
  | [] => [Dot]
  | c :: cs =>
    let rooted := IsPathSeparator c
    let res :=
      if rooted then cleanLoop rooted (c :: cs).length cs [Separator] 1
      else cleanLoop rooted (c :: cs).length (c :: cs) [] 0
    -- Turn empty string into "."
    if res.1.length = 0 then [Dot] else res.1

/-- Go `filepath.Join(elem...)` on Unix: the elements from the first non-empty
one on, joined with the separator and cleaned; `""` when all are empty. -/
def Join (elem : List GoString) : GoString :=
  match elem with
  | [] => []
  | e :: rest =>
    if e ≠ [] then Clean (strings.Join (e :: rest) [Separator])
    else Join rest

end filepath

/-! ## File system -/

/-- Go `os.FileInfo`, reduced to the one method the program calls. -/
structure FileInfo where
  IsDir : Bool
deriving DecidableEq

/-- State of the file system as `os.Stat` sees it: `none` when `os.Stat`
returns an error (the path does not exist or cannot be read). -/
abbrev FileSystem := GoString → Option FileInfo

namespace os

/-- Go `os.Stat(name)`: the file information, or `none` for an error. -/
def Stat (fs : FileSystem) (name : GoString) : Option FileInfo := fs name

end os

/-! ## `main.go`: data model -/

/-- The fields of `Config` that `main.go` reads. -/
structure Config where
  Verbose : Bool
  UsingScriptDir : Bool
  ScriptDir : GoString
  CommandName : GoString
  CommandArgs : List GoString
deriving DecidableEq

/-- Error values produced in `main.go`: the package variable
`ScriptNotFoundError`, or an error handed back by a library call. -/
inductive GoError where
  | ScriptNotFoundError
  | library (msg : String)
deriving DecidableEq

/-- Run-time panics: a failed bounds check, or an explicit `panic(msg)`. -/
inductive Panic where
  | sliceBoundsOutOfRange
  | explicit (msg : String)
deriving DecidableEq

/-- How a Go call `f(...) (T, error)` can end: with a value and a `nil` error,
with a non-`nil` error, or in a panic. -/
inductive Outcome (α : Type) where
  | ok (v : α)
  | err (e : GoError)
  | panic (p : Panic)
deriving DecidableEq

/-- Go `type URLInfo struct`. -/
structure URLInfo where
  ScriptPath : GoString
  PathInfo : GoString
  FilePath : GoString
deriving DecidableEq

/-! ## `main.go`: `parsePath` -/

/-- The loop `for i, part := range parts { ... }` of `parsePath`, followed by
`panic("parsePath")`.  `rest` is `parts[i:]`. -/
def parsePathLoop (config : Config) (fs : FileSystem) (parts : List GoString) :
    Nat → List GoString → URLInfo → Outcome URLInfo
  | _, [], _ => Outcome.panic (Panic.explicit "parsePath")
  | i, part :: rest, urlInfo =>
    let urlInfo1 : URLInfo :=
      { urlInfo with ScriptPath := strings.Join [urlInfo.ScriptPath, part] [Separator] }
    let urlInfo2 : URLInfo :=
      { urlInfo1 with FilePath := filepath.Join [config.ScriptDir, urlInfo1.ScriptPath] }
    let isLastPart : Bool := decide ((i : Int) = (parts.length : Int) - 1)
    match os.Stat fs urlInfo2.FilePath with
    | none =>
      -- not a valid path
      Outcome.err GoError.ScriptNotFoundError
    | some statInfo =>
      if isLastPart && statInfo.IsDir then
        -- at the end of url but is a dir
        Outcome.err GoError.ScriptNotFoundError
      else if statInfo.IsDir then
        -- we've hit a dir, carry on looking
        parsePathLoop config fs parts (i + 1) rest urlInfo2
      else if isLastPart then
        -- no extra args
        Outcome.ok urlInfo2
      else
        -- build path info from extra parts of url
        Outcome.ok
          { urlInfo2 with
            PathInfo := [Separator] ++ strings.Join (parts.drop (i + 1)) [Separator] }

/-- Go `func parsePath(path string, config *Config) (*URLInfo, error)`. -/
def parsePath (fs : FileSystem) (path : GoString) (config : Config) : Outcome URLInfo :=
  if !config.UsingScriptDir then
    Outcome.ok { ScriptPath := [Separator], PathInfo := path, FilePath := [] }
  else
    match path with
    | [] => Outcome.panic Panic.sliceBoundsOutOfRange
    | _ :: path1 =>
      let parts := strings.Split path1 Separator
      parsePathLoop config fs parts 0 parts { ScriptPath := [], PathInfo := [], FilePath := [] }

/-! ## Operating system: descriptors and child processes

The part of `os` and `os/exec` that `execCmd` drives.  A descriptor is an index
into the table of files this process has ever opened, so a closed descriptor
is never confused with a later one; a child process is an index into the table
of processes ever started. -/

/-- Handle of an `*os.File`: its index in `OSState.files`. -/
abbrev Fd := Nat

/-- Handle of a child process: its index in `OSState.procs`. -/
abbrev Pid := Nat

/-- Descriptors and child processes of the server process.  `files[fd]` is
`true` while descriptor `fd` is open; `procs[pid]` is `true` while child `pid`
is running. -/
structure OSState where
  files : List Bool
  procs : List Bool
deriving DecidableEq

namespace OSState

/-- Whether descriptor `fd` is open. -/
def isOpen (s : OSState) (fd : Fd) : Bool := s.files.getD fd false

/-- Go `os.Pipe()` when it succeeds: two new open descriptors `(r, w)`. -/
def pipe (s : OSState) : Fd × Fd × OSState :=
  (s.files.length, s.files.length + 1, { s with files := s.files ++ [true, true] })

/-- Go `(*os.File).Close` on each descriptor of `fds`. -/
def closeAll (s : OSState) (fds : List Fd) : OSState :=
  { s with files := fds.foldl (fun fs fd => fs.set fd false) s.files }

/-- Go `os.StartProcess` when it succeeds: a new running child. -/
def startProcess (s : OSState) : Pid × OSState :=
  (s.procs.length, { s with procs := s.procs ++ [true] })

/-- The children that are running. -/
def running (s : OSState) : List Pid :=
  (List.range s.procs.length).filter (fun pid => s.procs.getD pid false)

/-- The descriptors that are open. -/
def openFds (s : OSState) : List Fd :=
  (List.range s.files.length).filter (fun fd => s.isOpen fd)

end OSState

/-- What the operating system answers to the three calls of `execCmd` that can
fail: `none` when the call succeeds, the error otherwise. -/
structure Faults where
  stdoutPipe : Option GoError
  stdinPipe : Option GoError
  start : Option GoError
deriving DecidableEq

namespace exec

/-- Go `exec.Cmd`: the fields `execCmd` sets and the descriptors the
library remembers for it. -/
structure Cmd where
  Path : GoString
  Args : List GoString
  Env : List GoString
  closeAfterStart : List Fd
  closeAfterWait : List Fd
  Process : Option Pid
deriving DecidableEq

/-- Go `exec.Command(name, arg...)`. -/
def Command (name : GoString) (arg : List GoString) : Cmd :=
  { Path := name, Args := name :: arg, Env := [], closeAfterStart := [],
    closeAfterWait := [], Process := none }

/-- Go `(*Cmd).StdoutPipe`: on success a new pipe whose write end is closed
after start and whose read end, the result, is closed after wait. -/
def StdoutPipe (fault : Option GoError) (c : Cmd) (s : OSState) :
    Cmd × OSState × Option Fd × Option GoError :=
  match fault with
  | some e => (c, s, none, some e)
  | none =>
    let (pr, pw, s1) := s.pipe
    ({ c with closeAfterStart := c.closeAfterStart ++ [pw],
              closeAfterWait := c.closeAfterWait ++ [pr] }, s1, some pr, none)

/-- Go `(*Cmd).StdinPipe`: on success a new pipe whose read end is closed
after start and whose write end, the result, is closed after wait. -/
def StdinPipe (fault : Option GoError) (c : Cmd) (s : OSState) :
    Cmd × OSState × Option Fd × Option GoError :=
  match fault with
  | some e => (c, s, none, some e)
  | none =>
    let (pr, pw, s1) := s.pipe
    ({ c with closeAfterStart := c.closeAfterStart ++ [pr],
              closeAfterWait := c.closeAfterWait ++ [pw] }, s1, some pw, none)

/-- Go `(*Cmd).Start`: when the process cannot be started the library closes
the descriptors of `closeAfterStart` and `closeAfterWait` and returns the
error; otherwise the child runs and `closeAfterStart` is closed. -/
def Start (fault : Option GoError) (c : Cmd) (s : OSState) :
    Cmd × OSState × Option GoError :=
  match fault with
  | some e => (c, (s.closeAll c.closeAfterStart).closeAll c.closeAfterWait, some e)
  | none =>
    let (pid, s1) := s.startProcess
    ({ c with Process := some pid }, s1.closeAll c.closeAfterStart, none)

end exec

/-! ## `main.go`: `execCmd` -/

/-- The four results of `execCmd`, with the state of the operating system
after the call.  `none` is Go `nil`. -/
structure ExecResult where
  cmd : exec.Cmd
  stdin : Option Fd
  stdout : Option Fd
  err : Option GoError
  os : OSState
deriving DecidableEq

/-- Go `func execCmd(commandName string, commandArgs []string, env []string)
(*exec.Cmd, io.WriteCloser, io.ReadCloser, error)`. -/
def execCmd (faults : Faults) (s : OSState) (commandName : GoString)
    (commandArgs : List GoString) (env : List GoString) : ExecResult :=
  let cmd0 := exec.Command commandName commandArgs
  let cmd := { cmd0 with Env := env }
  match exec.StdoutPipe faults.stdoutPipe cmd s with
  | (cmd1, s1, _, some err) =>
    { cmd := cmd1, stdin := none, stdout := none, err := some err, os := s1 }
  | (cmd1, s1, stdout, none) =>
    match exec.StdinPipe faults.stdinPipe cmd1 s1 with
    | (cmd2, s2, _, some err) =>
      { cmd := cmd2, stdin := none, stdout := none, err := some err, os := s2 }
    | (cmd2, s2, stdin, none) =>
      match exec.Start faults.start cmd2 s2 with
      | (cmd3, s3, some err) =>
        { cmd := cmd3, stdin := none, stdout := none, err := some err, os := s3 }
      | (cmd3, s3, none) =>
        { cmd := cmd3, stdin := stdin, stdout := stdout, err := none, os := s3 }

/-! ## `main.go`: `acceptWebSocket` -/

/-- The four pump routines, with the pipe each one is given. -/
inductive Pump where
  | readProcess (stdout : Option Fd)
  | writeWebSocket
  | readWebSocket
  | writeProcess (stdin : Option Fd)
deriving DecidableEq

/-- Lines written with `log.Print`. -/
inductive LogLine where
  | connect
  | disconnect
  | error (e : GoError)
  | urlInfo (u : URLInfo)
  | envFailed (e : GoError)
  | startFailed (e : GoError)
deriving DecidableEq

/-- The statements of `acceptWebSocket` with an effect, in the order they run. -/
inductive Event where
  | log (l : LogLine)
  | parsePath (path : GoString)
  | createEnv (u : URLInfo)
  | execCmd (commandName : GoString) (commandArgs : List GoString) (env : List GoString)
  | go (p : Pump)
  | recvDone
  | wsClose
deriving DecidableEq

/-- What `acceptWebSocket` acts on: the operating system, the WebSocket
connection (open until `ws.Close()`), and the text frames sent to the client. -/
structure World where
  os : OSState
  wsOpen : Bool
  framesSent : List GoString
deriving DecidableEq

/-- Everything outside `main.go` that a run of `acceptWebSocket` depends on.
`createEnv` is the environment builder; `bridging` is what the pump routines,
the client and the child process do to the world between the four `go`
statements and the first value received on `done`, `none` when no value is
ever sent. -/
structure Env where
  fs : FileSystem
  createEnv : Config → URLInfo → Outcome (List GoString)
  faults : Faults
  bridging : World → Option World

/-- How a call of `acceptWebSocket` ends. -/
inductive Exit where
  | returned
  | panicked (p : Panic)
  | blocked
deriving DecidableEq

/-- A run of `acceptWebSocket`: how it ended, the world it left, and the
statements it executed. -/
structure Run where
  exit : Exit
  world : World
  trace : List Event
deriving DecidableEq

/-- The deferred calls of `acceptWebSocket`, last registered first:
`log.Print("websocket: DISCONNECT")` when verbose, then `ws.Close()`. -/
def runDeferred (config : Config) (exit : Exit) (w : World) (trace : List Event) : Run :=
  let trace1 := if config.Verbose then trace ++ [Event.log LogLine.disconnect] else trace
  { exit := exit, world := { w with wsOpen := false }, trace := trace1 ++ [Event.wsClose] }

/-- Go `func acceptWebSocket(ws *websocket.Conn, config *Config)`; `path` is
`ws.Request().URL.Path`. -/
def acceptWebSocket (env : Env) (path : GoString) (config : Config) (w : World) : Run :=
  let t0 : List Event := if config.Verbose then [Event.log LogLine.connect] else []
  let t1 := t0 ++ [Event.parsePath path]
  match parsePath env.fs path config with
  | Outcome.panic p => runDeferred config (Exit.panicked p) w t1
  | Outcome.err err =>
    -- TODO: 404?
    runDeferred config Exit.returned w (t1 ++ [Event.log (LogLine.error err)])
  | Outcome.ok urlInfo =>
    let t2 := if config.Verbose then t1 ++ [Event.log (LogLine.urlInfo urlInfo)] else t1
    let t3 := t2 ++ [Event.createEnv urlInfo]
    match env.createEnv config urlInfo with
    | Outcome.panic p => runDeferred config (Exit.panicked p) w t3
    | Outcome.err err =>
      runDeferred config Exit.returned w
        (if config.Verbose then t3 ++ [Event.log (LogLine.envFailed err)] else t3)
    | Outcome.ok e =>
      let commandName :=
        if config.UsingScriptDir then urlInfo.FilePath else config.CommandName
      let t4 := t3 ++ [Event.execCmd commandName config.CommandArgs e]
      let r := execCmd env.faults w.os commandName config.CommandArgs e
      let w1 : World := { w with os := r.os }
      match r.err with
      | some err =>
        runDeferred config Exit.returned w1
          (if config.Verbose then t4 ++ [Event.log (LogLine.startFailed err)] else t4)
      | none =>
        let t5 := t4 ++
          [Event.go (Pump.readProcess r.stdout), Event.go Pump.writeWebSocket,
           Event.go Pump.readWebSocket, Event.go (Pump.writeProcess r.stdin)]
        match env.bridging w1 with
        | none => { exit := Exit.blocked, world := w1, trace := t5 }
        | some w2 => runDeferred config Exit.returned w2 (t5 ++ [Event.recvDone])

/-! ## The reference walk of the path resolver

A second description of script-directory resolution, written from the
specification: the candidates are listed up front and the first one that is
not an existing directory decides the result. -/

/-- The script path of candidate `k`: `"/"+parts[0]+...+"/"+parts[k-1]` for the
first `k` segments. -/
def scriptPathOf (parts : List GoString) (k : Nat) : GoString :=
  ((parts.take k).map (fun p => Separator :: p)).flatten

/-- Candidate `k` of the walk: `filepath.Join(root, "/"+parts[0]+...+"/"+parts[k])`. -/
def candidate (root : GoString) (parts : List GoString) (k : Nat) : GoString :=
  filepath.Join [root, scriptPathOf parts (k + 1)]

/-- Whether candidate `k` is something other than an existing directory. -/
def notExistingDir (fs : FileSystem) (root : GoString) (parts : List GoString) (k : Nat) :
    Bool :=
  decide (fs (candidate root parts k) ≠ some { IsDir := true })

/-- The result of the walk when it stops at candidate `k`. -/
def walkResult (fs : FileSystem) (root : GoString) (parts : List GoString) (k : Nat) :
    Outcome URLInfo :=
  match fs (candidate root parts k) with
  | none => Outcome.err GoError.ScriptNotFoundError
  | some _ =>
    Outcome.ok
      { ScriptPath := scriptPathOf parts (k + 1),
        PathInfo :=
          if k + 1 = parts.length then []
          else Separator :: strings.Join (parts.drop (k + 1)) [Separator],
        FilePath := candidate root parts k }

/-- The reference walk: stop at the first candidate that is not an existing
directory; fail when it does not exist or when every candidate is a directory. -/
def referenceWalk (fs : FileSystem) (root : GoString) (path : GoString) : Outcome URLInfo :=
  let parts := strings.Split path.tail Separator
  match (List.range parts.length).find? (notExistingDir fs root parts) with
  | none => Outcome.err GoError.ScriptNotFoundError
  | some k => walkResult fs root parts k

/-! ## Concrete inputs -/

/-- Script-directory configuration with root `/scripts`. -/
def scriptsConfig : Config :=
  { Verbose := false, UsingScriptDir := true, ScriptDir := ascii "/scripts",
    CommandName := [], CommandArgs := [] }

/-- A file system with the directories `/`, `/etc`, `/scripts`, `/scripts/sub`
and the regular files `/scripts/foo`, `/etc/passwd`. -/
def sampleFS : FileSystem := fun name =>
  if name = ascii "/" ∨ name = ascii "/etc" ∨ name = ascii "/scripts" ∨
      name = ascii "/scripts/sub" then some { IsDir := true }
  else if name = ascii "/scripts/foo" ∨ name = ascii "/etc/passwd" then some { IsDir := false }
  else none

/-- A file system seen from the working directory: the directory `.` and the
regular file `foo` in it. -/
def relativeFS : FileSystem := fun name =>
  if name = ascii "." then some { IsDir := true }
  else if name = ascii "foo" then some { IsDir := false }
  else none

/-- An operating system state with no open descriptor and no child. -/
def emptyOS : OSState := { files := [], procs := [] }

/-- The world at the start of a connection: the socket is open, nothing has
been sent. -/
def initialWorld : World := { os := emptyOS, wsOpen := true, framesSent := [] }

/-- Fixed-command configuration running `/bin/cat`. -/
def catConfig : Config :=
  { Verbose := true, UsingScriptDir := false, ScriptDir := [],
    CommandName := ascii "/bin/cat", CommandArgs := [] }

/-- The second pipe cannot be created. -/
def stdinPipeFault : Faults :=
  { stdoutPipe := none, stdinPipe := some (GoError.library "pipe: too many open files"),
    start := none }

/-- The process cannot be started. -/
def startFault : Faults :=
  { stdoutPipe := none, stdinPipe := none,
    start := some (GoError.library "fork/exec: no such file or directory") }

/-- No call fails. -/
def noFault : Faults := { stdoutPipe := none, stdinPipe := none, start := none }

/-- A connection whose client closes the socket while the child keeps
running: the socket reader signals `done` and nothing else has changed. -/
def clientClosesFirst (faults : Faults) : Env :=
  { fs := sampleFS, createEnv := fun _ _ => Outcome.ok [ascii "REMOTE_ADDR=127.0.0.1"],
    faults := faults, bridging := fun w => some w }

/-! ## Lemmas on `strings.Split` and `strings.Join` -/

theorem strings.Split_ne_nil (s : GoString) (sep : Byte) : strings.Split s sep ≠ [] := by
  induction s with
  | nil => simp [strings.Split]
  | cons c cs ih =>
    unfold strings.Split
    split
    · simp
    · split <;> simp

theorem strings.Join_cons_cons (x y : GoString) (rest : List GoString) (sep : GoString) :
    strings.Join (x :: y :: rest) sep = x ++ sep ++ strings.Join (y :: rest) sep := by
  simp [strings.Join]

theorem strings.Join_pair (x y : GoString) (sep : GoString) :
    strings.Join [x, y] sep = x ++ sep ++ y := by
  simp [strings.Join]

/-- Prefixing every element with the separator is the separator followed by
the join. -/
theorem strings.sep_cons_Join (l : List GoString) (h : l ≠ []) (sep : Byte) :
    sep :: strings.Join l [sep] = (l.map (fun p => sep :: p)).flatten := by
  induction l with
  | nil => exact absurd rfl h
  | cons x xs ih =>
    cases xs with
    | nil => simp [strings.Join]
    | cons y ys =>
      have := ih (by simp)
      simp only [strings.Join_cons_cons, List.map_cons, List.flatten_cons] at this ⊢
      rw [← this]
      simp

/-- Joining what `Split` produced gives the string back. -/
theorem strings.Join_Split (s : GoString) (sep : Byte) :
    strings.Join (strings.Split s sep) [sep] = s := by
  induction s with
  | nil => simp [strings.Split, strings.Join]
  | cons c cs ih =>
    unfold strings.Split
    split
    · next h =>
      cases hs : strings.Split cs sep with
      | nil => exact absurd hs (strings.Split_ne_nil cs sep)
      | cons y ys =>
        rw [hs] at ih
        rw [strings.Join_cons_cons, ih, h]
        simp
    · cases hs : strings.Split cs sep with
      | nil => exact absurd hs (strings.Split_ne_nil cs sep)
      | cons y ys =>
        rw [hs] at ih
        simp only
        cases ys with
        | nil =>
          simp only [strings.Join] at ih ⊢
          rw [ih]
        | cons z zs =>
          rw [strings.Join_cons_cons] at ih ⊢
          rw [← ih]
          simp

/-! ## The resolver loop against the reference walk -/

theorem scriptPathOf_succ (parts : List GoString) (i : Nat) (part : GoString)
    (rest : List GoString) (h : parts.drop i = part :: rest) :
    scriptPathOf parts (i + 1) = scriptPathOf parts i ++ [Separator] ++ part := by
  have hi : i < parts.length := by
    by_contra hc
    rw [List.drop_eq_nil_of_le (by omega)] at h
    exact absurd h (by simp)
  have hp : parts[i] = part := by
    have := List.drop_eq_getElem_cons hi
    rw [h] at this
    exact (List.cons.inj this).1.symm
  unfold scriptPathOf
  rw [List.take_succ, List.getElem?_eq_getElem hi, hp]
  simp

/-- The loop of `parsePath`, started at segment `i` with the script path of the
first `i` segments, is the reference walk over the candidates from `i` on. -/
theorem parsePathLoop_eq_find (config : Config) (fs : FileSystem) (parts : List GoString) :
    ∀ (rest : List GoString) (i : Nat) (urlInfo : URLInfo),
      rest ≠ [] → parts.drop i = rest → urlInfo.ScriptPath = scriptPathOf parts i →
      urlInfo.PathInfo = [] →
      parsePathLoop config fs parts i rest urlInfo =
        match (List.range' i rest.length).find? (notExistingDir fs config.ScriptDir parts) with
        | none => Outcome.err GoError.ScriptNotFoundError
        | some k => walkResult fs config.ScriptDir parts k := by
  intro rest
  induction rest with
  | nil => intro i u h; exact absurd rfl h
  | cons part rest ih =>
    intro i u _ hdrop hsp hpi
    have hlen : i + (rest.length + 1) = parts.length := by
      have := congrArg List.length hdrop
      simp only [List.length_drop, List.length_cons] at this
      omega
    have hsp1 : strings.Join [u.ScriptPath, part] [Separator] = scriptPathOf parts (i + 1) := by
      rw [strings.Join_pair, hsp, scriptPathOf_succ parts i part rest hdrop]
    have hdrop1 : parts.drop (i + 1) = rest := by
      have := congrArg List.tail hdrop
      simpa using this
    unfold parsePathLoop
    simp only [hsp1, os.Stat, List.length_cons, List.range'_succ, List.find?_cons]
    have hcand : filepath.Join [config.ScriptDir, scriptPathOf parts (i + 1)] =
        candidate config.ScriptDir parts i := rfl
    rw [hcand]
    cases hfs : fs (candidate config.ScriptDir parts i) with
    | none =>
      simp [notExistingDir, walkResult, hfs]
    | some info =>
      obtain ⟨d⟩ := info
      cases d with
      | true =>
        have hne : notExistingDir fs config.ScriptDir parts i = false := by
          simp [notExistingDir, hfs]
        simp only [hne, Bool.and_true, ite_true]
        by_cases hlast : (i : Int) = (parts.length : Int) - 1
        · have hr : rest = [] := by
            apply List.eq_nil_of_length_eq_zero
            omega
          subst hr
          simp [hlast]
        · have hr : rest ≠ [] := by
            intro hr
            subst hr
            simp at hlen
            omega
          simp only [hlast, decide_False, Bool.false_eq_true, ite_false]
          exact ih (i + 1) _ hr hdrop1 rfl hpi
      | false =>
        have hne : notExistingDir fs config.ScriptDir parts i = true := by
          simp [notExistingDir, hfs]
        simp only [hne, Bool.and_false, Bool.false_eq_true, ite_false, walkResult, hfs]
        by_cases hlast : (i : Int) = (parts.length : Int) - 1
        · have h1 : i + 1 = parts.length := by omega
          simp [hlast, h1, hpi, ← hcand]
        · have h1 : ¬ (i + 1 = parts.length) := by omega
          simp [hlast, h1, ← hcand]

/-- In script-directory mode `parsePath` on a non-empty path is the reference walk. -/
theorem parsePath_eq_walk (fs : FileSystem) (config : Config) (c : Byte) (path1 : GoString)
    (hmode : config.UsingScriptDir = true) :
    parsePath fs (c :: path1) config = referenceWalk fs config.ScriptDir (c :: path1) := by
  unfold parsePath referenceWalk
  simp only [hmode, Bool.not_true, Bool.false_eq_true, ite_false, List.tail_cons]
  rw [parsePathLoop_eq_find config fs _ _ 0 _ (strings.Split_ne_nil _ _) (by simp)
    (by simp [scriptPathOf]) rfl, List.range_eq_range']

/-- The reference walk ends in a `URLInfo` or in `ScriptNotFoundError`. -/
theorem referenceWalk_ok_or_not_found (fs : FileSystem) (root path : GoString) :
    (∃ u, referenceWalk fs root path = Outcome.ok u) ∨
      referenceWalk fs root path = Outcome.err GoError.ScriptNotFoundError := by
  unfold referenceWalk
  simp only
  split
  · exact Or.inr rfl
  · unfold walkResult
    split
    · exact Or.inr rfl
    · exact Or.inl ⟨_, rfl⟩

/-- A successful reference walk stopped at some candidate `k` and returned
the result for it. -/
theorem referenceWalk_ok (fs : FileSystem) (root path : GoString) (u : URLInfo)
    (h : referenceWalk fs root path = Outcome.ok u) :
    ∃ k, k < (strings.Split path.tail Separator).length ∧
      u = { ScriptPath := scriptPathOf (strings.Split path.tail Separator) (k + 1),
            PathInfo :=
              if k + 1 = (strings.Split path.tail Separator).length then []
              else Separator :: strings.Join ((strings.Split path.tail Separator).drop (k + 1))
                [Separator],
            FilePath := candidate root (strings.Split path.tail Separator) k } := by
  unfold referenceWalk at h
  simp only at h
  split at h
  · exact absurd h (by simp)
  · next k hk =>
    have hmem := List.mem_of_find?_eq_some hk
    refine ⟨k, List.mem_range.mp hmem, ?_⟩
    unfold walkResult at h
    split at h
    · exact absurd h (by simp)
    · exact (Outcome.ok.inj h).symm

/-- The script path of all the segments is the separator followed by the
string that was split. -/
theorem scriptPathOf_all (s : GoString) :
    scriptPathOf (strings.Split s Separator) (strings.Split s Separator).length =
      Separator :: s := by
  unfold scriptPathOf
  rw [List.take_length, ← strings.sep_cons_Join _ (strings.Split_ne_nil _ _),
    strings.Join_Split]

/-- The script path of the first `k + 1` segments followed by the path
information of the remaining ones is the separator followed by the join of
all segments. -/
theorem scriptPathOf_append_pathInfo (parts : List GoString) (k : Nat) (hk : k < parts.length) :
    scriptPathOf parts (k + 1) ++
        (if k + 1 = parts.length then []
         else Separator :: strings.Join (parts.drop (k + 1)) [Separator]) =
      Separator :: strings.Join parts [Separator] := by
  have hne : parts ≠ [] := by
    intro h
    subst h
    simp at hk
  rw [strings.sep_cons_Join parts hne]
  by_cases hlast : k + 1 = parts.length
  · simp [hlast, scriptPathOf]
  · have hd : parts.drop (k + 1) ≠ [] := by
      intro h
      have := congrArg List.length h
      simp at this
      omega
    simp only [hlast, ite_false]
    rw [strings.sep_cons_Join _ hd]
    unfold scriptPathOf
    rw [← List.flatten_append, ← List.map_append, List.take_append_drop]

/-! ## Path resolver: the claims -/

/-- C1: when `config.UsingScriptDir` is false, `parsePath` succeeds on every
request path, the empty one included, with `ScriptPath = "/"`, `PathInfo` the
input path verbatim and `FilePath = ""`, whatever the script root and the
file system are. -/
theorem parsePath_fixed_command_mode (fs : FileSystem) (path : GoString) (config : Config)
    (hmode : config.UsingScriptDir = false) :
    parsePath fs path config =
      Outcome.ok { ScriptPath := ascii "/", PathInfo := path, FilePath := ascii "" } := by
  unfold parsePath
  simp only [hmode, Bool.not_false, ite_true]
  rfl

theorem parsePath_fixed_command_mode_witness :
    parsePath sampleFS (ascii "no/leading/slash")
        { scriptsConfig with UsingScriptDir := false } =
      Outcome.ok { ScriptPath := ascii "/", PathInfo := ascii "no/leading/slash",
                   FilePath := ascii "" } :=
  parsePath_fixed_command_mode sampleFS (ascii "no/leading/slash")
    { scriptsConfig with UsingScriptDir := false } rfl

/-- C2: in script-directory mode, on every request path of length at least one,
`parsePath` equals the reference walk over the candidates
`filepath.Join(root, "/"+parts[0]+...+"/"+parts[k])`; with root `/scripts`
holding the regular file `foo`, the path `/foo/extra/path` resolves to
`FilePath = /scripts/foo` and `PathInfo = /extra/path`, and `/bar` is not
found. -/
theorem parsePath_refines_referenceWalk :
    (∀ (fs : FileSystem) (path : GoString) (config : Config),
      config.UsingScriptDir = true → 1 ≤ path.length →
      parsePath fs path config = referenceWalk fs config.ScriptDir path) ∧
    parsePath sampleFS (ascii "/foo/extra/path") scriptsConfig =
      Outcome.ok { ScriptPath := ascii "/foo", PathInfo := ascii "/extra/path",
                   FilePath := ascii "/scripts/foo" } ∧
    parsePath sampleFS (ascii "/bar") scriptsConfig =
      Outcome.err GoError.ScriptNotFoundError := by
  refine ⟨?_, by decide, by decide⟩
  intro fs path config hmode hlen
  cases path with
  | nil => simp at hlen
  | cons c path1 => exact parsePath_eq_walk fs config c path1 hmode

theorem parsePath_refines_referenceWalk_witness :
    parsePath sampleFS (ascii "/sub/missing") scriptsConfig =
      referenceWalk sampleFS scriptsConfig.ScriptDir (ascii "/sub/missing") :=
  parsePath_refines_referenceWalk.1 sampleFS (ascii "/sub/missing") scriptsConfig rfl
    (by decide)

/-- C4, as the code has it: in script-directory mode, when the request path
begins with `/`, `filepath.Join(root, path)` is a directory and no candidate
of a proper prefix of the segments is an existing non-directory, `parsePath`
returns `ScriptNotFoundError`. -/
theorem parsePath_directory_not_found (fs : FileSystem) (path1 : GoString) (config : Config)
    (hmode : config.UsingScriptDir = true)
    (hdir : os.Stat fs (filepath.Join [config.ScriptDir, Separator :: path1]) =
      some { IsDir := true })
    (hproper : ∀ k, k + 1 < (strings.Split path1 Separator).length →
      os.Stat fs (candidate config.ScriptDir (strings.Split path1 Separator) k) ≠
        some { IsDir := false }) :
    parsePath fs (Separator :: path1) config = Outcome.err GoError.ScriptNotFoundError := by
  rw [parsePath_eq_walk fs config Separator path1 hmode]
  unfold referenceWalk
  simp only [List.tail_cons]
  split
  · rfl
  · next k hk =>
    have hlt : k < (strings.Split path1 Separator).length :=
      List.mem_range.mp (List.mem_of_find?_eq_some hk)
    have hp := List.find?_some hk
    simp only [notExistingDir, decide_eq_true_eq] at hp
    unfold walkResult
    split
    · rfl
    · next info hinfo =>
      exfalso
      obtain ⟨d⟩ := info
      cases d with
      | true => exact hp hinfo
      | false =>
        by_cases hlast : k + 1 < (strings.Split path1 Separator).length
        · exact hproper k hlast hinfo
        · have hk1 : k + 1 = (strings.Split path1 Separator).length := by omega
          have hc : candidate config.ScriptDir (strings.Split path1 Separator) k =
              filepath.Join [config.ScriptDir, Separator :: path1] := by
            unfold candidate
            rw [hk1, scriptPathOf_all]
          rw [hc] at hinfo
          simp only [os.Stat] at hdir
          rw [hdir] at hinfo
          exact absurd hinfo (by simp)

theorem parsePath_directory_not_found_witness :
    parsePath sampleFS (ascii "/sub") scriptsConfig = Outcome.err GoError.ScriptNotFoundError :=
  parsePath_directory_not_found sampleFS (ascii "sub") scriptsConfig rfl (by decide)
    (by
      intro k hk
      have : (strings.Split (ascii "sub") Separator).length = 1 := by decide
      omega)

/-- C4 fails as stated: with root `/scripts` holding the regular file `foo`,
`filepath.Join(root, "/foo/..")` is the directory `/scripts`, yet
`parsePath` succeeds on `/foo/..` with the script `/scripts/foo`. -/
theorem parsePath_resolves_below_directory :
    os.Stat sampleFS (filepath.Join [scriptsConfig.ScriptDir, ascii "/foo/.."]) =
        some { IsDir := true } ∧
      parsePath sampleFS (ascii "/foo/..") scriptsConfig =
        Outcome.ok { ScriptPath := ascii "/foo", PathInfo := ascii "/..",
                     FilePath := ascii "/scripts/foo" } ∧
      parsePath sampleFS (ascii "/foo/..") scriptsConfig ≠
        Outcome.err GoError.ScriptNotFoundError := by
  decide

/-- C5, as the code has it: for every configuration, file system and request
path, when the path is not empty or the configuration is not in
script-directory mode, `parsePath` returns either a `URLInfo` or
`ScriptNotFoundError`. -/
theorem parsePath_ok_or_not_found (fs : FileSystem) (path : GoString) (config : Config)
    (h : config.UsingScriptDir = false ∨ path ≠ []) :
    (∃ u, parsePath fs path config = Outcome.ok u) ∨
      parsePath fs path config = Outcome.err GoError.ScriptNotFoundError := by
  cases hmode : config.UsingScriptDir with
  | false =>
    left
    unfold parsePath
    simp [hmode]
  | true =>
    cases path with
    | nil =>
      rcases h with h | h
      · rw [hmode] at h
        exact absurd h (by simp)
      · exact absurd rfl h
    | cons c path1 =>
      rw [parsePath_eq_walk fs config c path1 hmode]
      exact referenceWalk_ok_or_not_found fs config.ScriptDir (c :: path1)

theorem parsePath_ok_or_not_found_witness :
    (∃ u, parsePath sampleFS (ascii "/foo//") scriptsConfig = Outcome.ok u) ∨
      parsePath sampleFS (ascii "/foo//") scriptsConfig =
        Outcome.err GoError.ScriptNotFoundError :=
  parsePath_ok_or_not_found sampleFS (ascii "/foo//") scriptsConfig (Or.inr (by decide))

/-- C5 fails as stated: in script-directory mode the empty request path makes
`path[1:]` panic with a slice-bounds error, which is neither a `URLInfo` nor
`ScriptNotFoundError`. -/
theorem parsePath_empty_path_panics :
    parsePath sampleFS (ascii "") scriptsConfig =
        Outcome.panic Panic.sliceBoundsOutOfRange ∧
      ¬ ((∃ u, parsePath sampleFS (ascii "") scriptsConfig = Outcome.ok u) ∨
        parsePath sampleFS (ascii "") scriptsConfig =
          Outcome.err GoError.ScriptNotFoundError) := by
  refine ⟨by decide, ?_⟩
  have h : parsePath sampleFS (ascii "") scriptsConfig =
      Outcome.panic Panic.sliceBoundsOutOfRange := by decide
  rw [h]
  simp

/-- C6: `strings.Split` yields at least one segment, the iteration of the
resolver loop on the last segment always returns, and so in script-directory
mode no request path of length at least one, script root or file system
makes `parsePath` reach `panic("parsePath")`, or any other panic. -/
theorem parsePath_defensive_panic_unreachable :
    (∀ s : GoString, 1 ≤ (strings.Split s Separator).length) ∧
    (∀ (config : Config) (fs : FileSystem) (parts : List GoString) (i : Nat)
        (part : GoString) (urlInfo : URLInfo), i + 1 = parts.length →
      ∀ p, parsePathLoop config fs parts i [part] urlInfo ≠ Outcome.panic p) ∧
    (∀ (fs : FileSystem) (path : GoString) (config : Config),
      config.UsingScriptDir = true → 1 ≤ path.length →
      ∀ p, parsePath fs path config ≠ Outcome.panic p) := by
  refine ⟨?_, ?_, ?_⟩
  · intro s
    have := strings.Split_ne_nil s Separator
    exact Nat.pos_of_ne_zero (fun h => this (List.eq_nil_of_length_eq_zero h))
  · intro config fs parts i part urlInfo hi p
    have hlast : ((i : Int) = (parts.length : Int) - 1) := by omega
    unfold parsePathLoop
    simp only [hlast, decide_True, Bool.true_and]
    split
    · simp
    · split
      · simp
      · split
        · simp_all
        · simp
  · intro fs path config hmode hlen p
    cases path with
    | nil => simp at hlen
    | cons c path1 =>
      rw [parsePath_eq_walk fs config c path1 hmode]
      rcases referenceWalk_ok_or_not_found fs config.ScriptDir (c :: path1) with ⟨u, h⟩ | h
      · rw [h]; simp
      · rw [h]; simp

theorem parsePath_defensive_panic_unreachable_witness :
    parsePath sampleFS (ascii "/sub/") scriptsConfig ≠
      Outcome.panic (Panic.explicit "parsePath") :=
  parsePath_defensive_panic_unreachable.2.2 sampleFS (ascii "/sub/") scriptsConfig rfl
    (by decide) (Panic.explicit "parsePath")

/-- C10: in script-directory mode, whenever `parsePath` succeeds on a request
path of length at least one, `ScriptPath ++ PathInfo` is `/` followed by the
path without its first byte; so it is the request path itself when that
begins with `/`. -/
theorem parsePath_keeps_request_path (fs : FileSystem) (path : GoString) (config : Config)
    (u : URLInfo) (hmode : config.UsingScriptDir = true) (hlen : 1 ≤ path.length)
    (hok : parsePath fs path config = Outcome.ok u) :
    u.ScriptPath ++ u.PathInfo = ascii "/" ++ path.tail ∧
      (path.head? = some Separator → u.ScriptPath ++ u.PathInfo = path) := by
  cases path with
  | nil => simp at hlen
  | cons c path1 =>
    rw [parsePath_eq_walk fs config c path1 hmode] at hok
    obtain ⟨k, hk, hu⟩ := referenceWalk_ok fs config.ScriptDir (c :: path1) u hok
    have key : u.ScriptPath ++ u.PathInfo = Separator :: path1 := by
      rw [hu]
      simp only [List.tail_cons] at hk ⊢
      rw [scriptPathOf_append_pathInfo _ k hk, strings.Join_Split]
    refine ⟨key, ?_⟩
    intro hhead
    simp only [List.head?_cons, Option.some.injEq] at hhead
    rw [key, hhead]

theorem parsePath_keeps_request_path_witness :
    ascii "/foo" ++ ascii "/extra//path/" = ascii "/" ++ (ascii "/foo/extra//path/").tail ∧
      ((ascii "/foo/extra//path/").head? = some Separator →
        ascii "/foo" ++ ascii "/extra//path/" = ascii "/foo/extra//path/") :=
  parsePath_keeps_request_path sampleFS (ascii "/foo/extra//path/") scriptsConfig
    { ScriptPath := ascii "/foo", PathInfo := ascii "/extra//path/",
      FilePath := ascii "/scripts/foo" } rfl (by decide) (by decide)

/-! ## `filepath.Clean`: the loop, piece by piece -/

theorem filepath.dropWhile_length_le (p : Byte → Bool) (l : GoString) :
    (l.dropWhile p).length ≤ l.length := by
  induction l with
  | nil => simp
  | cons c cs ih =>
    simp only [List.dropWhile_cons]
    split
    · simp only [List.length_cons]; omega
    · simp

/-- With enough fuel for the bytes that remain, the loop of `Clean` does not
depend on the fuel. -/
theorem filepath.cleanLoop_fuel (rooted : Bool) :
    ∀ (fuel fuel2 : Nat) (rest out : GoString) (dotdot : Nat),
      rest.length ≤ fuel → rest.length ≤ fuel2 →
      filepath.cleanLoop rooted fuel rest out dotdot =
        filepath.cleanLoop rooted fuel2 rest out dotdot := by
  intro fuel
  induction fuel with
  | zero =>
    intro fuel2 rest out dotdot h1 _
    have hr : rest = [] := List.eq_nil_of_length_eq_zero (by omega)
    subst hr
    cases fuel2 <;> simp [filepath.cleanLoop]
  | succ fuel ih =>
    intro fuel2 rest out dotdot h1 h2
    cases rest with
    | nil => cases fuel2 <;> simp [filepath.cleanLoop]
    | cons c cs =>
      cases fuel2 with
      | zero => simp at h2
      | succ fuel2 =>
        simp only [List.length_cons] at h1 h2
        have hcs1 : cs.length ≤ fuel := by omega
        have hcs2 : cs.length ≤ fuel2 := by omega
        have ht1 : cs.tail.length ≤ fuel := by simp; omega
        have ht2 : cs.tail.length ≤ fuel2 := by simp; omega
        unfold filepath.cleanLoop
        split
        · exact ih fuel2 cs out dotdot hcs1 hcs2
        · next hsep =>
          split
          · exact ih fuel2 cs out dotdot hcs1 hcs2
          · split
            · split
              · exact ih fuel2 _ _ _ ht1 ht2
              · split
                · exact ih fuel2 _ _ _ ht1 ht2
                · exact ih fuel2 _ _ _ ht1 ht2
            · have hd : ((c :: cs).dropWhile (fun b => !IsPathSeparator b)).length ≤ cs.length := by
                have hc : (!IsPathSeparator c) = true := by simpa using hsep
                rw [List.dropWhile_cons, if_pos hc]
                exact filepath.dropWhile_length_le _ cs
              exact ih fuel2 _ _ _ (by omega) (by omega)

theorem filepath.cleanRun_nil (rooted : Bool) (out : GoString) (dotdot : Nat) :
    filepath.cleanRun rooted [] out dotdot = (out, dotdot) := by
  simp [filepath.cleanRun, filepath.cleanLoop]

/-- One iteration of the loop of `Clean`, on the first byte that remains. -/
theorem filepath.cleanRun_cons (rooted : Bool) (c : Byte) (cs out : GoString) (dotdot : Nat) :
    filepath.cleanRun rooted (c :: cs) out dotdot =
      if IsPathSeparator c then filepath.cleanRun rooted cs out dotdot
      else if c = Dot ∧ (cs = [] ∨ cs.head? = some Separator) then
        filepath.cleanRun rooted cs out dotdot
      else if c = Dot ∧ cs.head? = some Dot ∧
          (cs.tail = [] ∨ cs.tail.head? = some Separator) then
        if out.length > dotdot then
          filepath.cleanRun rooted cs.tail
            (out.take (filepath.backtrack out dotdot (out.length - 1))) dotdot
        else if !rooted then
          filepath.cleanRun rooted cs.tail
            ((if out.length > 0 then out ++ [Separator] else out) ++ [Dot, Dot])
            ((if out.length > 0 then out ++ [Separator] else out) ++ [Dot, Dot]).length
        else filepath.cleanRun rooted cs.tail out dotdot
      else
        filepath.cleanRun rooted ((c :: cs).dropWhile (fun b => !IsPathSeparator b))
          ((if (rooted && out.length != 1) || (!rooted && out.length != 0) then
              out ++ [Separator]
            else out) ++ (c :: cs).takeWhile (fun b => !IsPathSeparator b)) dotdot := by
  have ht : cs.tail.length ≤ cs.length := by simp
  unfold filepath.cleanRun
  simp only [List.length_cons]
  rw [filepath.cleanLoop]
  split
  · rfl
  · next hsep =>
    split
    · rfl
    · split
      · split
        · exact filepath.cleanLoop_fuel rooted _ _ _ _ _ ht (le_refl _)
        · split
          · exact filepath.cleanLoop_fuel rooted _ _ _ _ _ ht (le_refl _)
          · exact filepath.cleanLoop_fuel rooted _ _ _ _ _ ht (le_refl _)
      · have hd : ((c :: cs).dropWhile (fun b => !IsPathSeparator b)).length ≤ cs.length := by
          have hc : (!IsPathSeparator c) = true := by simpa using hsep
          rw [List.dropWhile_cons, if_pos hc]
          exact filepath.dropWhile_length_le _ cs
        exact filepath.cleanLoop_fuel rooted _ _ _ _ _ hd (le_refl _)

theorem filepath.takeWhile_append_stop (p : Byte → Bool) (a b : GoString) (x : Byte)
    (hx : p x = false) : (a ++ x :: b).takeWhile p = a.takeWhile p := by
  induction a with
  | nil => simp [List.takeWhile_cons, hx]
  | cons c cs ih =>
    simp only [List.cons_append, List.takeWhile_cons]
    split
    · rw [ih]
    · rfl

theorem filepath.dropWhile_append_stop (p : Byte → Bool) (a b : GoString) (x : Byte)
    (hx : p x = false) : (a ++ x :: b).dropWhile p = a.dropWhile p ++ x :: b := by
  induction a with
  | nil => simp [List.dropWhile_cons, hx]
  | cons c cs ih =>
    simp only [List.cons_append, List.dropWhile_cons]
    split
    · rw [ih]
    · rfl

/-- The loop of `Clean` on `a ++ "/" ++ b` is the loop on `a` followed by the
loop on `b`: an element ends at a separator as it does at the end of the
path. -/
theorem filepath.cleanRun_append (rooted : Bool) (b : GoString) :
    ∀ (n : Nat) (a out : GoString) (dotdot : Nat), a.length ≤ n →
      filepath.cleanRun rooted (a ++ Separator :: b) out dotdot =
        filepath.cleanRun rooted b (filepath.cleanRun rooted a out dotdot).1
          (filepath.cleanRun rooted a out dotdot).2 := by
  intro n
  induction n with
  | zero =>
    intro a out dotdot h
    have ha : a = [] := List.eq_nil_of_length_eq_zero (by omega)
    subst ha
    rw [filepath.cleanRun_nil, List.nil_append, filepath.cleanRun_cons]
    simp [IsPathSeparator]
  | succ n ih =>
    intro a out dotdot h
    cases a with
    | nil =>
      rw [filepath.cleanRun_nil, List.nil_append, filepath.cleanRun_cons]
      simp [IsPathSeparator]
    | cons c cs =>
      simp only [List.length_cons] at h
      have hcs : cs.length ≤ n := by omega
      rw [List.cons_append, filepath.cleanRun_cons rooted c (cs ++ Separator :: b),
        filepath.cleanRun_cons rooted c cs]
      by_cases hsep : IsPathSeparator c = true
      · simp only [hsep, ite_true]
        exact ih cs out dotdot hcs
      · simp only [hsep, Bool.false_eq_true, ite_false]
        have hstop : (fun b : Byte => !IsPathSeparator b) Separator = false := by
          simp [IsPathSeparator]
        cases cs with
        | nil =>
          -- the element is the single byte `c`
          simp only [List.nil_append, List.head?_cons, List.tail_cons, List.head?_nil]
          by_cases hdot : c = Dot
          · have h1 : (Separator : Byte) ≠ Dot := by decide
            simp only [hdot, true_and, or_true, ite_true, List.nil_eq, true_or]
            rw [filepath.cleanRun_nil, filepath.cleanRun_cons]
            simp [IsPathSeparator]
          · simp only [hdot, false_and, ite_false]
            have := filepath.dropWhile_append_stop (fun b : Byte => !IsPathSeparator b) [c] b
              Separator hstop
            have htw := filepath.takeWhile_append_stop (fun b : Byte => !IsPathSeparator b) [c] b
              Separator hstop
            simp only [List.cons_append, List.nil_append] at this htw
            rw [this, htw]
            have hd : ([c].dropWhile (fun b : Byte => !IsPathSeparator b)).length ≤ n := by
              have := filepath.dropWhile_length_le (fun b : Byte => !IsPathSeparator b) [c]
              simp only [List.length_cons, List.length_nil] at this
              have hc : (!IsPathSeparator c) = true := by simpa using hsep
              rw [List.dropWhile_cons, if_pos hc]
              simp
            exact ih _ _ _ hd
        | cons d ds =>
          simp only [List.cons_append, List.head?_cons, List.tail_cons, reduceCtorEq, false_or]
          have hds : ds.length ≤ n := by simp only [List.length_cons] at hcs; omega
          have hcond : ((ds ++ Separator :: b = [] ∨ (ds ++ Separator :: b).head? = some Separator) ↔
              (ds = [] ∨ ds.head? = some Separator)) := by
            cases ds <;> simp
          have hd : (((c :: d :: ds)).dropWhile (fun b : Byte => !IsPathSeparator b)).length ≤ n := by
            have hc : (!IsPathSeparator c) = true := by simpa using hsep
            rw [List.dropWhile_cons, if_pos hc]
            exact le_trans (filepath.dropWhile_length_le _ _) hcs
          have hdw := filepath.dropWhile_append_stop (fun b : Byte => !IsPathSeparator b)
            (c :: d :: ds) b Separator hstop
          have htw := filepath.takeWhile_append_stop (fun b : Byte => !IsPathSeparator b)
            (c :: d :: ds) b Separator hstop
          simp only [List.cons_append] at hdw htw
          simp only [hcond, hdw, htw]
          split
          · have := ih (d :: ds) out dotdot hcs
            simpa using this
          · split
            · split
              · exact ih ds _ _ hds
              · split
                · exact ih ds _ _ hds
                · exact ih ds _ _ hds
            · exact ih _ _ _ hd

theorem filepath.cleanRun_separator (rooted : Bool) (x out : GoString) (dotdot : Nat) :
    filepath.cleanRun rooted (Separator :: x) out dotdot = filepath.cleanRun rooted x out dotdot := by
  rw [filepath.cleanRun_cons]
  simp [IsPathSeparator]

/-- The loop of `Clean` on one element that holds no separator and is not
`..`: the element is dropped (when empty or `.`) or appended after a
separator. -/
theorem filepath.cleanRun_element (rooted : Bool) (p out : GoString) (dotdot : Nat)
    (hsep : ∀ b ∈ p, IsPathSeparator b = false) (hdd : p ≠ [Dot, Dot])
    (hneed : ((rooted && out.length != 1) || (!rooted && out.length != 0)) = true) :
    filepath.cleanRun rooted p out dotdot = (out, dotdot) ∨
      (filepath.cleanRun rooted p out dotdot = (out ++ Separator :: p, dotdot) ∧ p ≠ []) := by
  cases p with
  | nil => left; exact filepath.cleanRun_nil rooted out dotdot
  | cons c cs =>
    have hc : IsPathSeparator c = false := hsep c (by simp)
    have hhead : cs.head? ≠ some Separator := by
      intro h
      cases cs with
      | nil => simp at h
      | cons d ds =>
        simp only [List.head?_cons, Option.some.injEq] at h
        have := hsep d (by simp)
        rw [h] at this
        simp [IsPathSeparator] at this
    rw [filepath.cleanRun_cons]
    simp only [hc, Bool.false_eq_true, ite_false]
    split
    · next h =>
      left
      rcases h.2 with h2 | h2
      · rw [h2, filepath.cleanRun_nil]
      · exact absurd h2 hhead
    · split
      · next h =>
        exfalso
        obtain ⟨h1, h2, h3⟩ := h
        cases cs with
        | nil => simp at h2
        | cons d ds =>
          simp only [List.head?_cons, Option.some.injEq] at h2
          simp only [List.tail_cons] at h3
          rcases h3 with h3 | h3
          · exact hdd (by rw [h1, h2, h3])
          · cases ds with
            | nil => simp at h3
            | cons e es =>
              simp only [List.head?_cons, Option.some.injEq] at h3
              have := hsep e (by simp)
              rw [h3] at this
              simp [IsPathSeparator] at this
      · right
        have hall : ∀ b ∈ c :: cs, (fun b : Byte => !IsPathSeparator b) b = true := by
          intro b hb
          simp [hsep b hb]
        have htw : (c :: cs).takeWhile (fun b : Byte => !IsPathSeparator b) = c :: cs :=
          List.takeWhile_eq_self_iff.mpr hall
        have hdw : (c :: cs).dropWhile (fun b : Byte => !IsPathSeparator b) = [] :=
          List.dropWhile_eq_nil_iff.mpr hall
        rw [htw, hdw, filepath.cleanRun_nil]
        simp [hneed]

/-- The segments `strings.Split` returns hold no separator. -/
theorem strings.Split_no_sep (sep : Byte) :
    ∀ (s : GoString) (p : GoString), p ∈ strings.Split s sep → ∀ b ∈ p, b ≠ sep := by
  intro s
  induction s with
  | nil =>
    intro p hp b hb
    simp only [strings.Split, List.mem_singleton] at hp
    subst hp
    simp at hb
  | cons c cs ih =>
    intro p hp b hb
    unfold strings.Split at hp
    split at hp
    · rcases List.mem_cons.mp hp with h | h
      · subst h; simp at hb
      · exact ih p h b hb
    · next hc =>
      cases hs : strings.Split cs sep with
      | nil => exact absurd hs (strings.Split_ne_nil cs sep)
      | cons y ys =>
        rw [hs] at hp ih
        simp only at hp
        rcases List.mem_cons.mp hp with h | h
        · subst h
          rcases List.mem_cons.mp hb with h2 | h2
          · rw [h2]; exact hc
          · exact ih y (by simp) b h2
        · exact ih p (List.mem_cons_of_mem _ h) b hb

/-- The loop of `Clean` on `"/"+s₀+"/"+s₁+...`, for segments that hold no
separator and are not `..`, only ever extends the buffer: the result is the
buffer it started from, or that buffer followed by a separator and more. -/
theorem filepath.cleanRun_segments (rooted : Bool) :
    ∀ (segs : List GoString) (out : GoString) (dotdot : Nat),
      (∀ p ∈ segs, (∀ b ∈ p, IsPathSeparator b = false) ∧ p ≠ [Dot, Dot]) →
      ((rooted && out.length != 1) || (!rooted && out.length != 0)) = true →
      (filepath.cleanRun rooted (segs.map (fun p => Separator :: p)).flatten out dotdot).1 = out ∨
        ∃ t, (filepath.cleanRun rooted (segs.map (fun p => Separator :: p)).flatten out
          dotdot).1 = out ++ Separator :: t := by
  intro segs
  induction segs with
  | nil =>
    intro out dotdot _ _
    left
    simp [filepath.cleanRun_nil]
  | cons p ps ih =>
    intro out dotdot hsegs hneed
    have hp := hsegs p (by simp)
    have hps : ∀ q ∈ ps, (∀ b ∈ q, IsPathSeparator b = false) ∧ q ≠ [Dot, Dot] :=
      fun q hq => hsegs q (List.mem_cons_of_mem _ hq)
    have hstep : filepath.cleanRun rooted ((p :: ps).map (fun p => Separator :: p)).flatten out
        dotdot =
        filepath.cleanRun rooted (ps.map (fun p => Separator :: p)).flatten
          (filepath.cleanRun rooted p out dotdot).1 (filepath.cleanRun rooted p out dotdot).2 := by
      simp only [List.map_cons, List.flatten_cons, List.cons_append]
      rw [filepath.cleanRun_separator]
      cases ps with
      | nil => simp [filepath.cleanRun_nil]
      | cons q qs =>
        simp only [List.map_cons, List.flatten_cons, List.cons_append]
        rw [filepath.cleanRun_append rooted _ p.length p out dotdot (le_refl _),
          filepath.cleanRun_separator]
    rw [hstep]
    rcases filepath.cleanRun_element rooted p out dotdot hp.1 hp.2 hneed with h | ⟨h, hne⟩
    · rw [h]
      exact ih out dotdot hps hneed
    · rw [h]
      have hneed2 : ((rooted && (out ++ Separator :: p).length != 1) ||
          (!rooted && (out ++ Separator :: p).length != 0)) = true := by
        have hl : 1 ≤ p.length := List.length_pos.mpr hne
        cases rooted
        · simp
        · simp; omega
      rcases ih (out ++ Separator :: p) dotdot hps hneed2 with h2 | ⟨t, h2⟩
      · right
        exact ⟨p, h2⟩
      · right
        refine ⟨p ++ Separator :: t, ?_⟩
        rw [h2]
        simp

theorem filepath.backtrack_bounds (out : GoString) (dotdot : Nat) :
    ∀ w, dotdot ≤ w → dotdot ≤ filepath.backtrack out dotdot w ∧
      filepath.backtrack out dotdot w ≤ w := by
  intro w
  induction w with
  | zero => intro h; simp [filepath.backtrack]; omega
  | succ w ih =>
    intro h
    unfold filepath.backtrack
    split
    · next hc =>
      simp only [Bool.and_eq_true, decide_eq_true_eq] at hc
      have := ih (by omega)
      omega
    · omega

/-- For a rooted path the buffer of `Clean` always begins with the separator,
and `dotdot` stays inside it after the leading separator. -/
theorem filepath.cleanRun_rooted_inv :
    ∀ (n : Nat) (rest out : GoString) (dotdot : Nat), rest.length ≤ n →
      1 ≤ dotdot → dotdot ≤ out.length → out.head? = some Separator →
      1 ≤ (filepath.cleanRun true rest out dotdot).2 ∧
        (filepath.cleanRun true rest out dotdot).2 ≤
          (filepath.cleanRun true rest out dotdot).1.length ∧
        (filepath.cleanRun true rest out dotdot).1.head? = some Separator := by
  intro n
  induction n with
  | zero =>
    intro rest out dotdot h h1 h2 h3
    have hr : rest = [] := List.eq_nil_of_length_eq_zero (by omega)
    subst hr
    rw [filepath.cleanRun_nil]
    exact ⟨h1, h2, h3⟩
  | succ n ih =>
    intro rest out dotdot h h1 h2 h3
    cases rest with
    | nil =>
      rw [filepath.cleanRun_nil]
      exact ⟨h1, h2, h3⟩
    | cons c cs =>
      simp only [List.length_cons] at h
      have hcs : cs.length ≤ n := by omega
      have ht : cs.tail.length ≤ n := by simp; omega
      rw [filepath.cleanRun_cons]
      split
      · exact ih cs out dotdot hcs h1 h2 h3
      · next hsep =>
        split
        · exact ih cs out dotdot hcs h1 h2 h3
        · split
          · split
            · next hgt =>
              have hb := filepath.backtrack_bounds out dotdot (out.length - 1) (by omega)
              apply ih _ _ _ ht h1
              · rw [List.length_take]
                omega
              · cases out with
                | nil => simp at h3
                | cons o os =>
                  have hpos : 0 < filepath.backtrack (o :: os) dotdot ((o :: os).length - 1) := by
                    omega
                  obtain ⟨m, hm⟩ := Nat.exists_eq_succ_of_ne_zero (Nat.ne_of_gt hpos)
                  rw [hm]
                  simpa using h3
            · simp only [Bool.not_true, Bool.false_eq_true, ite_false]
              exact ih _ _ _ ht h1 h2 h3
          · have hd : ((c :: cs).dropWhile (fun b => !IsPathSeparator b)).length ≤ n := by
              have hc : (!IsPathSeparator c) = true := by simpa using hsep
              rw [List.dropWhile_cons, if_pos hc]
              exact le_trans (filepath.dropWhile_length_le _ cs) hcs
            apply ih _ _ _ hd h1
            · have hle : out.length ≤
                  (if (true && out.length != 1 || !true && out.length != 0) = true then
                    out ++ [Separator] else out).length := by
                split <;> simp
              simp only [List.length_append]
              omega
            · cases out with
              | nil => simp at h3
              | cons o os =>
                simp only [List.head?_cons] at h3
                split <;> simp [h3]

/-- `Clean` through the loop with one iteration for each byte. -/
theorem filepath.Clean_cons (c : Byte) (cs : GoString) :
    filepath.Clean (c :: cs) =
      if IsPathSeparator c = true then
        (if (filepath.cleanRun true cs [Separator] 1).1.length = 0 then [Dot]
         else (filepath.cleanRun true cs [Separator] 1).1)
      else
        (if (filepath.cleanRun false (c :: cs) [] 0).1.length = 0 then [Dot]
         else (filepath.cleanRun false (c :: cs) [] 0).1) := by
  unfold filepath.Clean
  by_cases h : IsPathSeparator c = true
  · simp only [h, ite_true]
    rw [filepath.cleanLoop_fuel true (c :: cs).length cs.length cs [Separator] 1 (by simp)
      (le_refl _)]
    rfl
  · simp only [h, Bool.false_eq_true, ite_false]
    rfl

/-- Joining a root with `"/"+s₀+"/"+s₁+...`, for segments that hold no
separator and are not `..`, stays at or below the cleaned root, when the
cleaned root is neither `/` nor `.`. -/
theorem filepath.Join_below_root (root : GoString) (segs : List GoString)
    (hsegs : ∀ p ∈ segs, (∀ b ∈ p, IsPathSeparator b = false) ∧ p ≠ [Dot, Dot])
    (hroot1 : filepath.Clean root ≠ [Separator]) (hroot2 : filepath.Clean root ≠ [Dot]) :
    filepath.Join [root, (segs.map (fun p => Separator :: p)).flatten] = filepath.Clean root ∨
      ∃ t, filepath.Join [root, (segs.map (fun p => Separator :: p)).flatten] =
        filepath.Clean root ++ Separator :: t := by
  cases root with
  | nil => exact absurd rfl hroot2
  | cons c cs =>
    have hj : filepath.Join [c :: cs, (segs.map (fun p => Separator :: p)).flatten] =
        filepath.Clean (c :: (cs ++ Separator :: (segs.map (fun p => Separator :: p)).flatten)) := by
      simp [filepath.Join, strings.Join]
    rw [hj, filepath.Clean_cons c cs, filepath.Clean_cons c (cs ++ _)]
    rw [filepath.Clean_cons c cs] at hroot1 hroot2
    by_cases hc : IsPathSeparator c = true
    · simp only [hc, ite_true] at hroot1 hroot2 ⊢
      rw [filepath.cleanRun_append true _ cs.length cs [Separator] 1 (le_refl _)]
      obtain ⟨_, i2, i3⟩ := filepath.cleanRun_rooted_inv cs.length cs [Separator] 1 (le_refl _)
        (le_refl _) (by simp) (by simp)
      generalize filepath.cleanRun true cs [Separator] 1 = st at *
      obtain ⟨o, d⟩ := st
      simp only at i2 i3 hroot1 hroot2 ⊢
      have ho0 : o.length ≠ 0 := by
        intro h
        rw [List.eq_nil_of_length_eq_zero h] at i3
        simp at i3
      simp only [ho0, ite_false] at hroot1 ⊢
      have ho1 : o.length ≠ 1 := by
        intro h
        apply hroot1
        cases o with
        | nil => simp at h
        | cons x xs =>
          simp only [List.length_cons, Nat.add_left_eq_self] at h
          rw [List.eq_nil_of_length_eq_zero h]
          simp only [List.head?_cons, Option.some.injEq] at i3
          rw [i3]
      rcases filepath.cleanRun_segments true segs o d hsegs (by simp [ho1]) with h | ⟨t, h⟩
      · left
        rw [h]
        simp [ho0]
      · right
        refine ⟨t, ?_⟩
        rw [h]
        simp
    · simp only [hc, Bool.false_eq_true, ite_false] at hroot1 hroot2 ⊢
      rw [← List.cons_append,
        filepath.cleanRun_append false _ (c :: cs).length (c :: cs) [] 0 (le_refl _)]
      generalize filepath.cleanRun false (c :: cs) [] 0 = st at *
      obtain ⟨o, d⟩ := st
      simp only at hroot1 hroot2 ⊢
      have ho0 : o.length ≠ 0 := by
        intro h
        apply hroot2
        simp [h]
      simp only [ho0, ite_false] at hroot1 ⊢
      rcases filepath.cleanRun_segments false segs o d hsegs (by simp [ho0]) with h | ⟨t, h⟩
      · left
        rw [h]
        simp [ho0]
      · right
        refine ⟨t, ?_⟩
        rw [h]
        simp

/-- C3, as the code has it: in script-directory mode, for every file system
and every request path none of whose segments is `..`, and every script root
whose cleaned form is neither `/` nor `.`, whenever `parsePath` succeeds the
returned `FilePath` is the cleaned root itself or has the cleaned root
followed by a separator as a prefix. -/
theorem parsePath_filePath_below_root (fs : FileSystem) (path : GoString) (config : Config)
    (u : URLInfo) (hmode : config.UsingScriptDir = true)
    (hok : parsePath fs path config = Outcome.ok u)
    (hdotdot : ascii ".." ∉ strings.Split path.tail Separator)
    (hroot1 : filepath.Clean config.ScriptDir ≠ ascii "/")
    (hroot2 : filepath.Clean config.ScriptDir ≠ ascii ".") :
    u.FilePath = filepath.Clean config.ScriptDir ∨
      (filepath.Clean config.ScriptDir ++ ascii "/") <+: u.FilePath := by
  cases path with
  | nil =>
    simp [parsePath, hmode] at hok
  | cons c path1 =>
    rw [parsePath_eq_walk fs config c path1 hmode] at hok
    obtain ⟨k, _, hu⟩ := referenceWalk_ok fs config.ScriptDir (c :: path1) u hok
    simp only [List.tail_cons] at hu hdotdot
    have hfp : u.FilePath = candidate config.ScriptDir (strings.Split path1 Separator) k := by
      rw [hu]
    have hsegs : ∀ p ∈ (strings.Split path1 Separator).take (k + 1),
        (∀ b ∈ p, IsPathSeparator b = false) ∧ p ≠ [Dot, Dot] := by
      intro p hp
      have hmem : p ∈ strings.Split path1 Separator := List.mem_of_mem_take hp
      refine ⟨?_, ?_⟩
      · intro b hb
        have := strings.Split_no_sep Separator path1 p hmem b hb
        simp [IsPathSeparator, this]
      · intro h
        apply hdotdot
        rw [h] at hmem
        exact hmem
    have key := filepath.Join_below_root config.ScriptDir
      ((strings.Split path1 Separator).take (k + 1)) hsegs hroot1 hroot2
    rw [hfp]
    unfold candidate scriptPathOf
    rcases key with h | ⟨t, h⟩
    · left
      exact h
    · right
      rw [h]
      have hs : ascii "/" = [Separator] := by decide
      exact ⟨t, by rw [hs]; simp⟩

theorem parsePath_filePath_below_root_witness :
    ascii "/scripts/foo" = filepath.Clean scriptsConfig.ScriptDir ∨
      (filepath.Clean scriptsConfig.ScriptDir ++ ascii "/") <+: ascii "/scripts/foo" :=
  parsePath_filePath_below_root sampleFS (ascii "/foo/./extra") scriptsConfig
    { ScriptPath := ascii "/foo", PathInfo := ascii "/./extra",
      FilePath := ascii "/scripts/foo" } rfl (by decide) (by decide) (by decide) (by decide)

/-- C3 fails as stated: with root `/scripts` the request path `/../etc/passwd`
resolves to `/etc/passwd`, outside the root; with root `/` the path
`/etc/passwd` resolves to `/etc/passwd`, which does not begin with `//`; with
root `.` the path `/foo` resolves to `foo`, which does not begin with `./`. -/
theorem parsePath_filePath_escapes_root :
    (parsePath sampleFS (ascii "/../etc/passwd") scriptsConfig =
        Outcome.ok { ScriptPath := ascii "/../etc/passwd", PathInfo := ascii "",
                     FilePath := ascii "/etc/passwd" } ∧
      ¬ (ascii "/etc/passwd" = filepath.Clean scriptsConfig.ScriptDir ∨
        (filepath.Clean scriptsConfig.ScriptDir ++ ascii "/") <+: ascii "/etc/passwd")) ∧
    (parsePath sampleFS (ascii "/etc/passwd") { scriptsConfig with ScriptDir := ascii "/" } =
        Outcome.ok { ScriptPath := ascii "/etc/passwd", PathInfo := ascii "",
                     FilePath := ascii "/etc/passwd" } ∧
      ¬ (ascii "/etc/passwd" = filepath.Clean (ascii "/") ∨
        (filepath.Clean (ascii "/") ++ ascii "/") <+: ascii "/etc/passwd")) ∧
    (parsePath relativeFS (ascii "/foo") { scriptsConfig with ScriptDir := ascii "." } =
        Outcome.ok { ScriptPath := ascii "/foo", PathInfo := ascii "",
                     FilePath := ascii "foo" } ∧
      ¬ (ascii "foo" = filepath.Clean (ascii ".") ∨
        (filepath.Clean (ascii ".") ++ ascii "/") <+: ascii "foo")) := by
  decide

/-! ## Process launcher: the claims -/

theorem OSState.isOpen_closeAll_of_not_mem (s : OSState) (fds : List Fd) (fd : Fd)
    (h : fd ∉ fds) : (s.closeAll fds).isOpen fd = s.isOpen fd := by
  unfold OSState.closeAll OSState.isOpen
  simp only
  induction fds generalizing s with
  | nil => rfl
  | cons x xs ih =>
    simp only [List.foldl_cons]
    have hx : fd ≠ x := fun e => h (by simp [e])
    have hxs : fd ∉ xs := fun e => h (by simp [e])
    have := ih { s with files := s.files.set x false } hxs
    simp only at this
    rw [this]
    simp only [List.getD_eq_getElem?_getD, List.getElem?_set]
    split
    · next e => exact absurd e.symm hx
    · rfl

theorem OSState.isOpen_closeAll_of_mem (s : OSState) (fds : List Fd) (fd : Fd)
    (h : fd ∈ fds) : (s.closeAll fds).isOpen fd = false := by
  unfold OSState.closeAll OSState.isOpen
  simp only
  induction fds generalizing s with
  | nil => simp at h
  | cons x xs ih =>
    simp only [List.foldl_cons]
    by_cases hxs : fd ∈ xs
    · exact ih { s with files := s.files.set x false } hxs
    · have hx : fd = x := by
        rcases List.mem_cons.mp h with e | e
        · exact e
        · exact absurd e hxs
      have := OSState.isOpen_closeAll_of_not_mem { s with files := s.files.set x false } xs fd hxs
      unfold OSState.closeAll OSState.isOpen at this
      simp only at this
      rw [this, hx]
      by_cases hl : x < s.files.length <;>
        simp [List.getD_eq_getElem?_getD, List.getElem?_set, hl]

/-- The result of `execCmd` when both pipes are created and `Start` fails. -/
theorem execCmd_start_fails (s : OSState) (commandName : GoString)
    (commandArgs env : List GoString) (e : GoError) :
    execCmd { stdoutPipe := none, stdinPipe := none, start := some e } s commandName
        commandArgs env =
      { cmd :=
          { Path := commandName, Args := commandName :: commandArgs, Env := env,
            closeAfterStart := [s.files.length + 1, s.files.length + 2],
            closeAfterWait := [s.files.length, s.files.length + 3], Process := none },
        stdin := none, stdout := none, err := some e,
        os := (OSState.closeAll { s with files := s.files ++ [true, true, true, true] }
          [s.files.length + 1, s.files.length + 2]).closeAll
            [s.files.length, s.files.length + 3] } := by
  simp [execCmd, exec.StdoutPipe, exec.StdinPipe, exec.Start, exec.Command, OSState.pipe]

/-- C7, as the code has it: when setup fails at any step, `execCmd` returns
the error with nil stdin and nil stdout and has started no process; when the
failing step is `StdoutPipe` or `Start`, every descriptor is as it was before
the call, the pipes of the call being closed. -/
theorem execCmd_failure (faults : Faults) (s : OSState) (commandName : GoString)
    (commandArgs env : List GoString)
    (hfail : faults.stdoutPipe ≠ none ∨ faults.stdinPipe ≠ none ∨ faults.start ≠ none) :
    (execCmd faults s commandName commandArgs env).err ≠ none ∧
      (execCmd faults s commandName commandArgs env).stdin = none ∧
      (execCmd faults s commandName commandArgs env).stdout = none ∧
      (execCmd faults s commandName commandArgs env).os.procs = s.procs ∧
      (execCmd faults s commandName commandArgs env).cmd.Process = none ∧
      ((faults.stdoutPipe ≠ none ∨ faults.stdinPipe = none) →
        (∀ fd : Nat,
          (execCmd faults s commandName commandArgs env).os.isOpen fd = s.isOpen fd) ∧
        ∀ fd : Nat, fd ∈ (execCmd faults s commandName commandArgs env).cmd.closeAfterStart ++
            (execCmd faults s commandName commandArgs env).cmd.closeAfterWait →
          (execCmd faults s commandName commandArgs env).os.isOpen fd = false) := by
  obtain ⟨f1, f2, f3⟩ := faults
  cases f1 with
  | some e1 =>
    simp [execCmd, exec.StdoutPipe, exec.Command]
  | none =>
    cases f2 with
    | some e2 =>
      simp [execCmd, exec.StdoutPipe, exec.StdinPipe, exec.Command, OSState.pipe]
    | none =>
      cases f3 with
      | none => simp at hfail
      | some e3 =>
        rw [execCmd_start_fails]
        simp only [ne_eq, reduceCtorEq, not_false_eq_true, true_and, not_true_eq_false,
          or_true, forall_const]
        have hclosed : ∀ fd, s.files.length ≤ fd →
            ((OSState.closeAll { s with files := s.files ++ [true, true, true, true] }
              [s.files.length + 1, s.files.length + 2]).closeAll
                [s.files.length, s.files.length + 3]).isOpen fd = false := by
          intro fd hfd
          by_cases h2 : fd ∈ [s.files.length, s.files.length + 3]
          · exact OSState.isOpen_closeAll_of_mem _ _ fd h2
          · rw [OSState.isOpen_closeAll_of_not_mem _ _ fd h2]
            by_cases h1 : fd ∈ [s.files.length + 1, s.files.length + 2]
            · exact OSState.isOpen_closeAll_of_mem _ _ fd h1
            · rw [OSState.isOpen_closeAll_of_not_mem _ _ fd h1]
              simp only [List.mem_cons, List.mem_singleton, List.not_mem_nil, or_false] at h1 h2
              simp only [OSState.isOpen, List.getD_eq_getElem?_getD]
              rw [List.getElem?_eq_none (by simp; omega)]
              rfl
        refine ⟨?_, ?_, ?_⟩
        · simp [OSState.closeAll]
        · intro fd
          by_cases hfd : s.files.length ≤ fd
          · rw [hclosed fd hfd]
            simp only [OSState.isOpen, List.getD_eq_getElem?_getD]
            rw [List.getElem?_eq_none hfd]
            rfl
          · have h2 : fd ∉ [s.files.length, s.files.length + 3] := by
              simp only [List.mem_cons, List.mem_singleton, List.not_mem_nil, or_false]
              omega
            have h1 : fd ∉ [s.files.length + 1, s.files.length + 2] := by
              simp only [List.mem_cons, List.mem_singleton, List.not_mem_nil, or_false]
              omega
            rw [OSState.isOpen_closeAll_of_not_mem _ _ fd h2,
              OSState.isOpen_closeAll_of_not_mem _ _ fd h1]
            simp only [OSState.isOpen, List.getD_eq_getElem?_getD]
            rw [List.getElem?_append_left (by omega)]
        · intro fd hfd
          apply hclosed
          simp only [List.mem_append, List.mem_cons, List.mem_singleton, List.not_mem_nil,
            or_false] at hfd
          omega

theorem execCmd_failure_witness :
    (execCmd startFault emptyOS (ascii "/bin/nonexistent") [] []).err ≠ none ∧
      (execCmd startFault emptyOS (ascii "/bin/nonexistent") [] []).stdin = none ∧
      (execCmd startFault emptyOS (ascii "/bin/nonexistent") [] []).stdout = none ∧
      (execCmd startFault emptyOS (ascii "/bin/nonexistent") [] []).os.procs = emptyOS.procs ∧
      (execCmd startFault emptyOS (ascii "/bin/nonexistent") [] []).cmd.Process = none ∧
      ((startFault.stdoutPipe ≠ none ∨ startFault.stdinPipe = none) →
        (∀ fd : Nat,
          (execCmd startFault emptyOS (ascii "/bin/nonexistent") [] []).os.isOpen fd =
            emptyOS.isOpen fd) ∧
        ∀ fd : Nat,
          fd ∈ (execCmd startFault emptyOS (ascii "/bin/nonexistent") [] []).cmd.closeAfterStart ++
            (execCmd startFault emptyOS (ascii "/bin/nonexistent") [] []).cmd.closeAfterWait →
          (execCmd startFault emptyOS (ascii "/bin/nonexistent") [] []).os.isOpen fd = false) :=
  execCmd_failure startFault emptyOS (ascii "/bin/nonexistent") [] [] (by decide)

/-- C7 fails as stated: when `StdoutPipe` succeeds and `StdinPipe` fails,
`execCmd` returns the error with both ends of the stdout pipe still open. -/
theorem execCmd_leaves_stdout_pipe_open :
    (execCmd stdinPipeFault emptyOS (ascii "/bin/cat") [] []).err =
        some (GoError.library "pipe: too many open files") ∧
      (execCmd stdinPipeFault emptyOS (ascii "/bin/cat") [] []).cmd.closeAfterStart = [1] ∧
      (execCmd stdinPipeFault emptyOS (ascii "/bin/cat") [] []).cmd.closeAfterWait = [0] ∧
      (execCmd stdinPipeFault emptyOS (ascii "/bin/cat") [] []).os.openFds = [0, 1] ∧
      emptyOS.openFds = [] := by
  decide

/-! ## Connection bridge: the claims -/

/-- The deferred calls end the run with the socket closed, start no pump,
call nothing and leave the rest of the world alone. -/
theorem runDeferred_spec (config : Config) (exit : Exit) (w : World) (trace : List Event) :
    (runDeferred config exit w trace).exit = exit ∧
      (runDeferred config exit w trace).world = { w with wsOpen := false } ∧
      (runDeferred config exit w trace).trace.getLast? = some Event.wsClose ∧
      (∀ p, Event.go p ∈ (runDeferred config exit w trace).trace ↔ Event.go p ∈ trace) ∧
      (∀ n a e, Event.execCmd n a e ∈ (runDeferred config exit w trace).trace ↔
        Event.execCmd n a e ∈ trace) ∧
      (Event.recvDone ∈ (runDeferred config exit w trace).trace ↔ Event.recvDone ∈ trace) := by
  unfold runDeferred
  cases config.Verbose <;> simp

/-- When `execCmd` returns an error it has started no process. -/
theorem execCmd_err_procs (faults : Faults) (s : OSState) (commandName : GoString)
    (commandArgs env : List GoString)
    (h : (execCmd faults s commandName commandArgs env).err ≠ none) :
    (execCmd faults s commandName commandArgs env).os.procs = s.procs := by
  obtain ⟨f1, f2, f3⟩ := faults
  cases f1 <;> cases f2 <;> cases f3 <;>
    simp_all [execCmd, exec.StdoutPipe, exec.StdinPipe, exec.Start, exec.Command,
      OSState.pipe, OSState.closeAll]

/-- C8: `acceptWebSocket` calls `execCmd` only if `parsePath` and `createEnv`
both succeeded, and starts a pump only if `execCmd` also succeeded; when one
of the three fails it starts no pump, sends no frame, starts no process and
returns with the WebSocket closed, `ws.Close()` being its last statement. -/
theorem acceptWebSocket_short_circuits (env : Env) (path : GoString) (config : Config)
    (w : World) :
    ((∃ n a e, Event.execCmd n a e ∈ (acceptWebSocket env path config w).trace) →
      ∃ u e, parsePath env.fs path config = Outcome.ok u ∧
        env.createEnv config u = Outcome.ok e) ∧
    ((∃ p, Event.go p ∈ (acceptWebSocket env path config w).trace) →
      ∃ u e, parsePath env.fs path config = Outcome.ok u ∧
        env.createEnv config u = Outcome.ok e ∧
        (execCmd env.faults w.os
          (if config.UsingScriptDir then u.FilePath else config.CommandName)
          config.CommandArgs e).err = none) ∧
    (((∃ err, parsePath env.fs path config = Outcome.err err) ∨
      (∃ u err, parsePath env.fs path config = Outcome.ok u ∧
        env.createEnv config u = Outcome.err err) ∨
      (∃ u e, parsePath env.fs path config = Outcome.ok u ∧
        env.createEnv config u = Outcome.ok e ∧
        (execCmd env.faults w.os
          (if config.UsingScriptDir then u.FilePath else config.CommandName)
          config.CommandArgs e).err ≠ none)) →
      (∀ p, Event.go p ∉ (acceptWebSocket env path config w).trace) ∧
        (acceptWebSocket env path config w).world.framesSent = w.framesSent ∧
        (acceptWebSocket env path config w).world.os.procs = w.os.procs ∧
        (acceptWebSocket env path config w).exit = Exit.returned ∧
        (acceptWebSocket env path config w).world.wsOpen = false ∧
        (acceptWebSocket env path config w).trace.getLast? = some Event.wsClose) := by
  unfold acceptWebSocket
  cases hp : parsePath env.fs path config with
  | panic p =>
    simp only [runDeferred_spec, reduceCtorEq, false_and, exists_false, or_false, false_or]
    cases config.Verbose <;> simp
  | err err =>
    simp only [runDeferred_spec, reduceCtorEq, false_and, exists_false, or_false, false_or]
    cases config.Verbose <;> simp
  | ok u =>
    cases hc : env.createEnv config u with
    | panic p =>
      simp only [runDeferred_spec, hc, reduceCtorEq, false_and, and_false, exists_false,
        or_false, false_or, Outcome.ok.injEq, exists_eq_left']
      cases config.Verbose <;> simp [hc]
    | err err =>
      simp only [runDeferred_spec, hc, reduceCtorEq, false_and, and_false, exists_false,
        or_false, false_or, Outcome.ok.injEq, exists_eq_left']
      cases config.Verbose <;> simp [hc]
    | ok e =>
      simp only [hc, reduceCtorEq, false_and, and_false, exists_false,
        or_false, false_or, Outcome.ok.injEq, exists_eq_left']
      cases hx : (execCmd env.faults w.os
          (if config.UsingScriptDir then u.FilePath else config.CommandName)
          config.CommandArgs e).err with
      | some err =>
        have hprocs := (execCmd_err_procs env.faults w.os
          (if config.UsingScriptDir then u.FilePath else config.CommandName)
          config.CommandArgs e (by rw [hx]; simp))
        simp only [hx, runDeferred_spec, hprocs]
        cases config.Verbose <;> simp [hc, hx]
      | none =>
        simp only [hx]
        cases hb : env.bridging { w with os := (execCmd env.faults w.os
            (if config.UsingScriptDir then u.FilePath else config.CommandName)
            config.CommandArgs e).os } with
        | none => cases config.Verbose <;> simp [hc, hx]
        | some w2 =>
          simp only [runDeferred_spec]
          cases config.Verbose <;> simp [hc, hx]

theorem acceptWebSocket_short_circuits_witness :
    (∀ p, Event.go p ∉
        (acceptWebSocket (clientClosesFirst startFault) (ascii "/") catConfig initialWorld).trace) ∧
      (acceptWebSocket (clientClosesFirst startFault) (ascii "/") catConfig
        initialWorld).world.framesSent = initialWorld.framesSent ∧
      (acceptWebSocket (clientClosesFirst startFault) (ascii "/") catConfig
        initialWorld).world.os.procs = initialWorld.os.procs ∧
      (acceptWebSocket (clientClosesFirst startFault) (ascii "/") catConfig
        initialWorld).exit = Exit.returned ∧
      (acceptWebSocket (clientClosesFirst startFault) (ascii "/") catConfig
        initialWorld).world.wsOpen = false ∧
      (acceptWebSocket (clientClosesFirst startFault) (ascii "/") catConfig
        initialWorld).trace.getLast? = some Event.wsClose :=
  (acceptWebSocket_short_circuits (clientClosesFirst startFault) (ascii "/") catConfig
    initialWorld).2.2
    (Or.inr (Or.inr ⟨{ ScriptPath := ascii "/", PathInfo := ascii "/", FilePath := ascii "" },
      [ascii "REMOTE_ADDR=127.0.0.1"], by decide, by decide, by decide⟩))

/-- C9, as the code has it: when `acceptWebSocket` has received the first
value on `done`, it returns with the WebSocket closed, and everything else,
the child process and its stdin and stdout pipes included, is exactly as the
bridging phase left it: `acceptWebSocket` itself neither kills nor waits for
the process nor closes a pipe. -/
theorem acceptWebSocket_after_done (env : Env) (path : GoString) (config : Config) (w : World)
    (hdone : Event.recvDone ∈ (acceptWebSocket env path config w).trace) :
    (acceptWebSocket env path config w).exit = Exit.returned ∧
      (acceptWebSocket env path config w).world.wsOpen = false ∧
      ∃ u e w2, parsePath env.fs path config = Outcome.ok u ∧
        env.createEnv config u = Outcome.ok e ∧
        (execCmd env.faults w.os
          (if config.UsingScriptDir then u.FilePath else config.CommandName)
          config.CommandArgs e).err = none ∧
        env.bridging { w with os := (execCmd env.faults w.os
          (if config.UsingScriptDir then u.FilePath else config.CommandName)
          config.CommandArgs e).os } = some w2 ∧
        (acceptWebSocket env path config w).world = { w2 with wsOpen := false } := by
  unfold acceptWebSocket at hdone ⊢
  cases hp : parsePath env.fs path config with
  | panic p =>
    exfalso
    simp only [hp, runDeferred_spec] at hdone
    cases hv : config.Verbose <;> simp [hv] at hdone
  | err err =>
    exfalso
    simp only [hp, runDeferred_spec] at hdone
    cases hv : config.Verbose <;> simp [hv] at hdone
  | ok u =>
    simp only [hp] at hdone ⊢
    cases hc : env.createEnv config u with
    | panic p =>
      exfalso
      simp only [hc, runDeferred_spec] at hdone
      cases hv : config.Verbose <;> simp [hv] at hdone
    | err err =>
      exfalso
      simp only [hc, runDeferred_spec] at hdone
      cases hv : config.Verbose <;> simp [hv] at hdone
    | ok e =>
      simp only [hc] at hdone ⊢
      cases hx : (execCmd env.faults w.os
          (if config.UsingScriptDir then u.FilePath else config.CommandName)
          config.CommandArgs e).err with
      | some err =>
        exfalso
        simp only [hx, runDeferred_spec] at hdone
        cases hv : config.Verbose <;> simp [hv] at hdone
      | none =>
        simp only [hx] at hdone ⊢
        cases hb : env.bridging { w with os := (execCmd env.faults w.os
            (if config.UsingScriptDir then u.FilePath else config.CommandName)
            config.CommandArgs e).os } with
        | none =>
          exfalso
          simp only [hb] at hdone
          cases hv : config.Verbose <;> simp [hv] at hdone
        | some w2 =>
          simp only [runDeferred_spec, true_and]
          exact ⟨u, e, w2, rfl, hc, hx, hb, rfl⟩

theorem acceptWebSocket_after_done_witness :
    (acceptWebSocket (clientClosesFirst noFault) (ascii "/chat") catConfig
        initialWorld).exit = Exit.returned ∧
      (acceptWebSocket (clientClosesFirst noFault) (ascii "/chat") catConfig
        initialWorld).world.wsOpen = false ∧
      ∃ u e w2, parsePath (clientClosesFirst noFault).fs (ascii "/chat") catConfig =
          Outcome.ok u ∧
        (clientClosesFirst noFault).createEnv catConfig u = Outcome.ok e ∧
        (execCmd (clientClosesFirst noFault).faults initialWorld.os
          (if catConfig.UsingScriptDir then u.FilePath else catConfig.CommandName)
          catConfig.CommandArgs e).err = none ∧
        (clientClosesFirst noFault).bridging { initialWorld with
          os := (execCmd (clientClosesFirst noFault).faults initialWorld.os
            (if catConfig.UsingScriptDir then u.FilePath else catConfig.CommandName)
            catConfig.CommandArgs e).os } = some w2 ∧
        (acceptWebSocket (clientClosesFirst noFault) (ascii "/chat") catConfig
          initialWorld).world = { w2 with wsOpen := false } :=
  acceptWebSocket_after_done (clientClosesFirst noFault) (ascii "/chat") catConfig initialWorld
    (by decide)

/-- C9 fails as stated: a connection reaches the bridging phase, the client
closes the socket while the child keeps running, `acceptWebSocket` receives
the value on `done` and returns with the WebSocket closed, and the child is
still running with its stdout (descriptor 0) and stdin (descriptor 3) pipes
open. -/
theorem acceptWebSocket_leaves_process_running :
    (acceptWebSocket (clientClosesFirst noFault) (ascii "/chat") catConfig
        initialWorld).exit = Exit.returned ∧
      Event.recvDone ∈ (acceptWebSocket (clientClosesFirst noFault) (ascii "/chat") catConfig
        initialWorld).trace ∧
      Event.go (Pump.readProcess (some 0)) ∈ (acceptWebSocket (clientClosesFirst noFault)
        (ascii "/chat") catConfig initialWorld).trace ∧
      Event.go (Pump.writeProcess (some 3)) ∈ (acceptWebSocket (clientClosesFirst noFault)
        (ascii "/chat") catConfig initialWorld).trace ∧
      (acceptWebSocket (clientClosesFirst noFault) (ascii "/chat") catConfig
        initialWorld).world.wsOpen = false ∧
      (acceptWebSocket (clientClosesFirst noFault) (ascii "/chat") catConfig
        initialWorld).world.os.running = [0] ∧
      (acceptWebSocket (clientClosesFirst noFault) (ascii "/chat") catConfig
        initialWorld).world.os.openFds = [0, 3] := by
  decide
